import Mathlib

/-!
Verification of the asynchronous job-tracking subsystem of the
file-handle-sys repository (src/api/mineru/api.py and
src/api/libreoffice/api.py), shallowly embedded in Lean 4.

The embedding mirrors the Python source:
* Python dicts (both JSON payloads and the module-level task registries)
  become insertion-ordered association lists with unique keys;
* the task records become structures with the fields the code reads and
  writes (`status`, `base_url`, `file_path`, `result`, `error` for the
  Mineru backend; `status`, `output_path`, `error` for the LibreOffice
  backend; the timestamp bookkeeping fields `created_at` / `started_at` /
  `finished_at` are write-only in the source and are not modelled);
* the blocking external HTTP calls become explicit outcome parameters;
* the worker loop's per-job iteration becomes an explicit list of the
  successive record values it writes, so the order of state transitions
  is visible to the theorems.
-/

/-! ### Mineru backend (src/api/mineru/api.py) -/

/-! ### LibreOffice backend (src/api/libreoffice/api.py) -/

/-! ### The job queue (`_task_queue` with `_queue_cv`) -/

/-! ### The state machine described by the specification -/

/-! ### Record invariants and helper lemmas -/

/-- Job states, the exact string values stored in the `status` field by the
source (`"pending"`, `"processing"`, `"done"`, `"error"`). -/
inductive TaskStatus where
  | pending
  | processing
  | done
  | error
deriving DecidableEq, Repr

/-- Python/JSON values, as far as the embedded code inspects them. -/
inductive PyVal where
  | str : String → PyVal
  | int : Int → PyVal
  | bool : Bool → PyVal
  | null : PyVal
  | list : List PyVal → PyVal
  | dict : List (String × PyVal) → PyVal
deriving Repr

/-- Python dict lookup `d.get(k)` on an insertion-ordered association list. -/
def assocGet {α : Type} : List (String × α) → String → Option α
  | [], _ => none
  | (k, v) :: rest, key => if k = key then some v else assocGet rest key

/-- Python dict assignment `d[k] = v`: update the existing key in place, or
append a fresh key at the end (insertion order). -/
def assocSet {α : Type} : List (String × α) → String → α → List (String × α)
  | [], key, v => [(key, v)]
  | (k, w) :: rest, key, v =>
      if k = key then (key, v) :: rest else (k, w) :: assocSet rest key v

/-- Python dict deletion `del d[k]`. -/
def assocDel {α : Type} (es : List (String × α)) (key : String) :
    List (String × α) :=
  es.filter (fun e => !(e.1 == key))

/--
`_normalize_mineru_response` from src/api/mineru/api.py (lines 57-84).
If the response is a dict whose `"results"` entry is a single-item mapping
whose sole value is a dict containing `"md_content"`, set `"md_result"` to
that value and delete `"results"`; if `"results"` is already a string, move
it to `"md_result"`; otherwise return the data unchanged.
-/
def normalize_mineru_response (data : PyVal) : PyVal :=
  match data with
  | .dict entries =>
      match assocGet entries "results" with
      | some (.dict [(_, first_val)]) =>
          match first_val with
          | .dict fentries =>
              match assocGet fentries "md_content" with
              | some mdv =>
                  .dict (assocDel (assocSet entries "md_result" mdv) "results")
              | none => data
          | _ => data
      | some (.str s) =>
          .dict (assocDel (assocSet entries "md_result" (.str s)) "results")
      | some _ => data
      | none => data
  | _ => data

/-- One Mineru task record, as created by `parse_async_file` (line 210) and
mutated by `_worker_loop`. -/
structure MineruTask where
  status : TaskStatus
  base_url : String
  file_path : Option String
  result : Option PyVal
  error : Option String
deriving Repr

/-- The module-level shared state of the Mineru backend: the task registry
`_task_status` and the job queue `_task_queue`. -/
structure MineruState where
  registry : List (String × MineruTask)
  queue : List String
deriving Repr

/-- ASCII lowercasing of one character, modelling Python `str.lower` on the
ASCII inputs the checks compare against. -/
def lowerChar (c : Char) : Char :=
  if 65 ≤ c.toNat ∧ c.toNat ≤ 90 then Char.ofNat (c.toNat + 32) else c

/-- Whether `sub` occurs at the start of `hay`. -/
def startsWithSeq : List Char → List Char → Bool
  | _, [] => true
  | [], _ :: _ => false
  | h :: t, sh :: st => h == sh && startsWithSeq t st

/-- Python `sub in s` substring test, over character lists. -/
def containsSeq : List Char → List Char → Bool
  | [], sub => sub.isEmpty
  | h :: t, sub => startsWithSeq (h :: t) sub || containsSeq t sub

/-- Python `s.endswith(suffix)`, over character lists. -/
def endsWithSeq (s tail : List Char) : Bool :=
  startsWithSeq s.reverse tail.reverse

/-- The PDF allow-list check of `parse_async_file` (lines 193-202): a file
counts as PDF when its content type contains `"pdf"` (case-insensitively)
or its filename ends with `".pdf"` (case-insensitively). -/
def isPdfUpload (content_type filename : Option String) : Bool :=
  let viaCt :=
    match content_type with
    | some ct => containsSeq (ct.data.map lowerChar) "pdf".data
    | none => false
  let viaName :=
    match filename with
    | some fn => endsWithSeq (fn.data.map lowerChar) ".pdf".data
    | none => false
  viaCt || viaName

/-- The effective base URL `base_url or MINERU_DEFAULT_BASE_URL`
(line 205): an absent or empty form field falls back to the default. -/
def effectiveBase (base_url_form : Option String) (default_base : String) :
    String :=
  match base_url_form with
  | some b => if b = "" then default_base else b
  | none => default_base

/--
`parse_async_file` (lines 188-214): reject non-PDF uploads with HTTP 415;
the upload save may fail with HTTP 413 (`upload = none` models
`_save_upload` raising); reject a missing effective base URL with HTTP 400;
otherwise store a fresh `pending` record in the registry, append the
identifier to the queue, and return it.  The response is `Except Nat String`
(error HTTP status, or the returned task id); the second component is the
module state after the call.
-/
def parse_async_file (st : MineruState)
    (content_type filename base_url_form : Option String)
    (default_base : String) (upload : Option String) (fresh : String) :
    Except Nat String × MineruState :=
  if isPdfUpload content_type filename = false then (.error 415, st)
  else
    match upload with
    | none => (.error 413, st)
    | some saved =>
        let use_base := effectiveBase base_url_form default_base
        if use_base = "" then (.error 400, st)
        else
          let newTask : MineruTask :=
            ⟨.pending, use_base, some saved, none, none⟩
          (.ok fresh,
           ⟨assocSet st.registry fresh newTask, st.queue ++ [fresh]⟩)

/-- `parse_result` (lines 217-223): unknown identifiers get HTTP 404;
otherwise the endpoint returns the entire stored task record as the JSON
body with the default HTTP 200 status, whatever the task's state. -/
def parse_result (st : MineruState) (task_id : String) :
    Except Nat (Nat × MineruTask) :=
  match assocGet st.registry task_id with
  | none => .error 404
  | some t => .ok (200, t)

/--
The successive values a claimed task record takes during one iteration of
`_worker_loop` (lines 114-147), starting from the record found in the
registry.  A record whose status is not `pending` is skipped unchanged
(line 123).  Otherwise the worker first writes `processing` (line 125);
then, if the record has no `file_path`, it writes the fixed error message
of line 136; else the converter call's `outcome` decides between the
`done` write (lines 140-142) and the `error` write (lines 145-146).
-/
def mineruJobTrace (r : MineruTask) (outcome : Except String PyVal) :
    List MineruTask :=
  match r.status with
  | .pending =>
      let p : MineruTask := { r with status := .processing }
      match r.file_path with
      | none =>
          [r, p, { p with
                   status := .error,
                   error := some "no file_path in task; URL-based parsing removed" }]
      | some _ =>
          match outcome with
          | .ok v => [r, p, { p with status := .done, result := some v }]
          | .error m => [r, p, { p with status := .error, error := some m }]
  | _ => [r]

/-- The final record value written back by one worker iteration. -/
def mineruJobFinal (r : MineruTask) (outcome : Except String PyVal) :
    MineruTask :=
  (mineruJobTrace r outcome).getLastD r

/-- One full worker iteration at the level of the module state: pop the
queue head (blocking while the queue is empty — modelled as no change),
look the identifier up, skip non-`pending` records, and otherwise write
the claimed record's final value back into the registry. -/
def mineruWorkerIter (st : MineruState) (outcome : Except String PyVal) :
    MineruState :=
  match st.queue with
  | [] => st
  | task_id :: rest =>
      match assocGet st.registry task_id with
      | none => { st with queue := rest }
      | some t =>
          if t.status = .pending then
            { registry := assocSet st.registry task_id (mineruJobFinal t outcome),
              queue := rest }
          else
            { st with queue := rest }

/-- The operations that touch the Mineru module state. -/
inductive SysOp where
  | submit (fresh : String) (content_type filename base_url_form : Option String)
      (default_base : String) (upload : Option String)
  | work (outcome : Except String PyVal)
  | query (task_id : String)

/-- Effect of one operation on the module state (`query` is read-only). -/
def mineruStep (st : MineruState) : SysOp → MineruState
  | .submit fresh ct fn burl defBase up =>
      (parse_async_file st ct fn burl defBase up fresh).2
  | .work outcome => mineruWorkerIter st outcome
  | .query _ => st

/-- Run a sequence of operations from a given state. -/
def mineruRun : MineruState → List SysOp → MineruState
  | st, [] => st
  | st, op :: rest => mineruRun (mineruStep st op) rest

/-- Whether a submission with these inputs succeeds (independent of the
module state). -/
def submitOk (content_type filename base_url_form : Option String)
    (default_base : String) (upload : Option String) : Bool :=
  isPdfUpload content_type filename && upload.isSome &&
    !(effectiveBase base_url_form default_base == "")

/-- The identifiers returned by the successful submissions of a run. -/
def submittedOk : List SysOp → List String
  | [] => []
  | .submit fresh ct fn burl defBase up :: rest =>
      (if submitOk ct fn burl defBase up then [fresh] else []) ++
        submittedOk rest
  | .work _ :: rest => submittedOk rest
  | .query _ :: rest => submittedOk rest

/-- The extension allow-list `SUPPORTED_FORMATS` (lines 23-35). -/
def SUPPORTED_FORMATS : List String :=
  [".doc", ".docx", ".odt", ".rtf", ".txt", ".html", ".htm", ".xml",
   ".xls", ".xlsx", ".ods", ".csv", ".ppt", ".pptx", ".odp"]

/-- `Path(filename).suffix`: the extension (with its dot) of the final
path component — the part from the last dot, provided that dot is neither
the first nor the last character of the name. -/
def pathSuffixChars (fn : List Char) : List Char :=
  let name := (fn.reverse.takeWhile (fun c => !(c == '/'))).reverse
  let revExt := name.reverse.takeWhile (fun c => !(c == '.'))
  if name.contains '.' then
    if 1 ≤ revExt.length ∧ 0 < name.length - (revExt.length + 1) then
      '.' :: revExt.reverse
    else []
  else []

/-- One LibreOffice async task record, created at line 201 and mutated by
`_async_convert_task`. -/
structure LibreTask where
  status : TaskStatus
  output_path : Option String
  error : Option String
deriving Repr

/-- The LibreOffice module state: the task registry `_task_status`
(line 51).  This backend has no queue — a fresh thread is started per
submission. -/
structure LibreState where
  registry : List (String × LibreTask)
deriving Repr

/-- Outcome of `_post_to_gotenberg_and_save` (lines 54-64) as observed by
`_async_convert_task`: HTTP 200 (file saved), a non-200 HTTP status with
the response text, or an exception with message `msg`. -/
inductive GotOutcome where
  | httpOk
  | httpFail (code : Nat) (text : String)
  | exn (msg : String)

/-- The single record write performed by `_async_convert_task`
(lines 138-153): on success `status := done` and `output_path` set; on a
non-200 response `status := error` with the formatted HTTP message; on an
exception `status := error` with the exception text.  The write is
unconditional — the current status is not checked and no `processing`
state is ever written. -/
def libreJobFinal (r : LibreTask) (output_path : String) (o : GotOutcome) :
    LibreTask :=
  match o with
  | .httpOk =>
      { r with status := .done, output_path := some output_path }
  | .httpFail code text =>
      { r with
        status := .error,
        error := some ("HTTP " ++ toString code ++ ": " ++ text) }
  | .exn m => { r with status := .error, error := some m }

/--
`convert_document_async` (lines 156-213): reject a missing/empty filename
with HTTP 400; reject an extension outside `SUPPORTED_FORMATS` with
HTTP 400; saving the upload may raise (`saveOk = false`), caught by the
handler before any record exists, giving HTTP 500 with the state
unchanged; then the `pending` record is stored (line 201); starting the
background thread may raise (`startOk = false`), and the handler
(lines 209-213) deletes the uploaded file but leaves the freshly created
registry record in place while answering HTTP 500.
-/
def convert_document_async (st : LibreState) (filename : Option String)
    (fresh : String) (saveOk startOk : Bool) :
    Except Nat String × LibreState :=
  match filename with
  | none => (.error 400, st)
  | some fn =>
      if fn = "" then (.error 400, st)
      else if (SUPPORTED_FORMATS.map String.data).contains
          ((pathSuffixChars fn.data).map lowerChar) then
        if saveOk = false then (.error 500, st)
        else
          let st1 : LibreState :=
            ⟨assocSet st.registry fresh ⟨.pending, none, none⟩⟩
          if startOk = false then (.error 500, st1)
          else (.ok fresh, st1)
      else (.error 400, st)

/-- The possible responses of `get_conversion_result`. -/
inductive LibreResp where
  | notFound
  | json (code : Nat) (body : List (String × PyVal))
  | file (path : String)
deriving Repr

/-- `get_conversion_result` (lines 216-237): 404 for unknown identifiers;
`{"status": "pending"}` with HTTP 200 while pending; `{"status": "error",
"error": <message>}` with HTTP 500 on error; the converted file when done
and the output file exists; `{"status": "unknown"}` with HTTP 500
otherwise. -/
def get_conversion_result (st : LibreState) (task_id : String)
    (outputExists : Bool) : LibreResp :=
  match assocGet st.registry task_id with
  | none => .notFound
  | some t =>
      match t.status with
      | .pending => .json 200 [("status", .str "pending")]
      | .error =>
          .json 500 [("status", .str "error"),
                     ("error", match t.error with
                               | some m => .str m
                               | none => .null)]
      | .done =>
          match t.output_path with
          | some p =>
              if !(p == "") && outputExists then .file p
              else .json 500 [("status", .str "unknown")]
          | none => .json 500 [("status", .str "unknown")]
      | .processing => .json 500 [("status", .str "unknown")]

/-- Queue operations: `enq` is lines 211-213 of src/api/mineru/api.py
(`_task_queue.append` under the condition variable plus `notify`), `deq`
is lines 116-119 (wait in a loop while the queue is empty, then
`_task_queue.pop(0)`). -/
inductive QOp where
  | enq (id : String)
  | deq

/-- Queue state: the pending sequence plus the log of identifiers returned
by completed dequeues, in return order. -/
structure QState where
  queue : List String
  log : List String
deriving Repr

/-- One queue operation.  A `deq` on an empty queue has not returned yet
(the caller is blocked in the wait loop), so it changes nothing. -/
def qStep (s : QState) : QOp → QState
  | .enq id => ⟨s.queue ++ [id], s.log⟩
  | .deq =>
      match s.queue with
      | [] => s
      | h :: t => ⟨t, s.log ++ [h]⟩

/-- Run a sequence of queue operations. -/
def qRun : QState → List QOp → QState
  | s, [] => s
  | s, op :: rest => qRun (qStep s op) rest

/-- The identifiers enqueued by a sequence of operations, in order. -/
def enqueuedOf : List QOp → List String
  | [] => []
  | .enq id :: rest => id :: enqueuedOf rest
  | .deq :: rest => enqueuedOf rest

/-- Modelled from the spec: the transitions allowed by the state machine
`pending → processing → {done | error}` of spec sections 4.3 and 8 —
used to compare the code's actual transitions against the spec's words. -/
def specAllowed : TaskStatus → TaskStatus → Bool
  | .pending, .processing => true
  | .processing, .done => true
  | .processing, .error => true
  | _, _ => false

/-- Forward progress order on states: `pending < processing < terminal`. -/
def statusRank : TaskStatus → Nat
  | .pending => 0
  | .processing => 1
  | .done => 2
  | .error => 2

/-- Mutual exclusion of `result` and `error`, with both absent in the
non-terminal states (spec section 3). -/
def exclMineru (r : MineruTask) : Prop :=
  (r.result = none ∨ r.error = none) ∧
    ((r.status = .pending ∨ r.status = .processing) →
      r.result = none ∧ r.error = none)

/-- All records held in a Mineru registry satisfy the field invariant. -/
def mineruInv (st : MineruState) : Prop :=
  ∀ id r, assocGet st.registry id = some r → exclMineru r

/-- The "single-entry mapping whose sole value is a dict containing
md_content" shape tested by `_normalize_mineru_response`, and the value it
extracts. -/
def mdSingleVal : PyVal → Option PyVal
  | .dict [(_, .dict fentries)] => assocGet fentries "md_content"
  | _ => none

/-- Mutual exclusion of `output_path` and `error` for LibreOffice records,
with both absent in the non-terminal states. -/
def libreExcl (r : LibreTask) : Prop :=
  (r.output_path = none ∨ r.error = none) ∧
    ((r.status = .pending ∨ r.status = .processing) →
      r.output_path = none ∧ r.error = none)

/-! ### Theorems -/

theorem assocGet_assocSet {α : Type} (es : List (String × α)) (k k' : String)
    (v : α) :
    assocGet (assocSet es k v) k' = if k = k' then some v else assocGet es k' := by
  induction es with
  | nil => by_cases h : k = k' <;> simp [assocSet, assocGet, h]
  | cons e rest ih =>
      obtain ⟨ek, ev⟩ := e
      by_cases h1 : ek = k
      · by_cases h2 : k = k' <;> simp [assocSet, assocGet, h1, h2]
      · by_cases h2 : ek = k'
        · subst h2
          have : ¬ k = ek := fun h => h1 h.symm
          simp [assocSet, assocGet, h1, this]
        · simp [assocSet, assocGet, h1, h2, ih]

theorem isSome_assocGet_assocSet {α : Type} (es : List (String × α))
    (k k' : String) (v : α) :
    (assocGet (assocSet es k v) k').isSome = true ↔
      k = k' ∨ (assocGet es k').isSome = true := by
  rw [assocGet_assocSet]
  by_cases h : k = k' <;> simp [h]

theorem exclMineru_trace (r : MineruTask) (o : Except String PyVal)
    (hr : exclMineru r) : ∀ s ∈ mineruJobTrace r o, exclMineru s := by
  intro s hs
  rcases hst : r.status with h | h | h | h
  · have hfields := hr.2 (Or.inl hst)
    rcases hfp : r.file_path with _ | fp
    · simp only [mineruJobTrace, hst, hfp, List.mem_cons, List.not_mem_nil, or_false] at hs
      rcases hs with rfl | rfl | rfl
      · exact hr
      · exact ⟨Or.inl hfields.1, fun _ => hfields⟩
      · exact ⟨Or.inl hfields.1, by simp⟩
    · rcases o with m | v
      · simp only [mineruJobTrace, hst, hfp, List.mem_cons, List.not_mem_nil, or_false] at hs
        rcases hs with rfl | rfl | rfl
        · exact hr
        · exact ⟨Or.inl hfields.1, fun _ => hfields⟩
        · exact ⟨Or.inl hfields.1, by simp⟩
      · simp only [mineruJobTrace, hst, hfp, List.mem_cons, List.not_mem_nil, or_false] at hs
        rcases hs with rfl | rfl | rfl
        · exact hr
        · exact ⟨Or.inl hfields.1, fun _ => hfields⟩
        · exact ⟨Or.inr hfields.2, by simp⟩
  all_goals
    simp only [mineruJobTrace, hst, List.mem_singleton] at hs
    exact hs ▸ hr

theorem mineruJobFinal_mem (r : MineruTask) (o : Except String PyVal) :
    mineruJobFinal r o ∈ mineruJobTrace r o := by
  rcases hst : r.status with h | h | h | h
  · rcases hfp : r.file_path with _ | fp
    · simp [mineruJobFinal, mineruJobTrace, hst, hfp]
    · rcases o with m | v
      · simp [mineruJobFinal, mineruJobTrace, hst, hfp]
      · simp [mineruJobFinal, mineruJobTrace, hst, hfp]
  all_goals simp [mineruJobFinal, mineruJobTrace, hst]

theorem exclMineru_final (r : MineruTask) (o : Except String PyVal)
    (hr : exclMineru r) : exclMineru (mineruJobFinal r o) :=
  exclMineru_trace r o hr _ (mineruJobFinal_mem r o)

theorem mineruJobFinal_ok (r : MineruTask) (fp : String) (v : PyVal)
    (hst : r.status = .pending) (hfp : r.file_path = some fp) :
    mineruJobFinal r (.ok v) =
      { r with status := .done, result := some v } := by
  simp [mineruJobFinal, mineruJobTrace, hst, hfp]

theorem mineruJobFinal_fail (r : MineruTask) (fp : String) (m : String)
    (hst : r.status = .pending) (hfp : r.file_path = some fp) :
    mineruJobFinal r (.error m) =
      { r with status := .error, error := some m } := by
  simp [mineruJobFinal, mineruJobTrace, hst, hfp]

theorem mineruJobFinal_noFile (r : MineruTask) (o : Except String PyVal)
    (hst : r.status = .pending) (hfp : r.file_path = none) :
    mineruJobFinal r o =
      { r with
        status := .error,
        error := some "no file_path in task; URL-based parsing removed" } := by
  simp [mineruJobFinal, mineruJobTrace, hst, hfp]

theorem mineruJobTrace_skip (r : MineruTask) (o : Except String PyVal)
    (hst : r.status ≠ .pending) : mineruJobTrace r o = [r] := by
  rcases h : r.status with h1 | h1 | h1 | h1
  · exact absurd h hst
  all_goals simp [mineruJobTrace, h]

theorem parse_async_file_fail (st : MineruState)
    (ct fn burl : Option String) (defBase : String) (up : Option String)
    (fresh : String) (c : Nat)
    (h : (parse_async_file st ct fn burl defBase up fresh).1 = .error c) :
    (parse_async_file st ct fn burl defBase up fresh).2 = st := by
  unfold parse_async_file at h ⊢
  by_cases hpdf : isPdfUpload ct fn = false
  · simp [hpdf]
  · rcases up with _ | saved
    · simp [hpdf]
    · by_cases hb : effectiveBase burl defBase = ""
      · simp [hpdf, hb]
      · simp [hpdf, hb] at h

theorem parse_async_file_ok (st : MineruState)
    (ct fn burl : Option String) (defBase : String) (saved : String)
    (fresh : String)
    (hok : submitOk ct fn burl defBase (some saved) = true) :
    parse_async_file st ct fn burl defBase (some saved) fresh =
      (.ok fresh,
       ⟨assocSet st.registry fresh
          ⟨.pending, effectiveBase burl defBase, some saved, none, none⟩,
        st.queue ++ [fresh]⟩) := by
  unfold submitOk at hok
  simp only [Bool.and_eq_true, Bool.not_eq_eq_eq_not, Bool.not_true,
    beq_eq_false_iff_ne, ne_eq] at hok
  unfold parse_async_file
  simp [hok.1.1, hok.2]

theorem submitOk_of_ok (st : MineruState)
    (ct fn burl : Option String) (defBase : String) (up : Option String)
    (fresh : String)
    (h : (parse_async_file st ct fn burl defBase up fresh).1 = .ok fresh) :
    submitOk ct fn burl defBase up = true := by
  unfold parse_async_file at h
  by_cases hpdf : isPdfUpload ct fn = false
  · simp [hpdf] at h
  · rcases up with _ | saved
    · simp [hpdf] at h
    · by_cases hb : effectiveBase burl defBase = ""
      · simp [hpdf, hb] at h
      · unfold submitOk
        simp only [Bool.not_eq_false] at hpdf
        simp [hpdf, hb]

theorem mineruWorkerIter_hasId (st : MineruState) (o : Except String PyVal)
    (id : String) :
    (assocGet (mineruWorkerIter st o).registry id).isSome = true ↔
      (assocGet st.registry id).isSome = true := by
  rcases hq : st.queue with _ | ⟨h, t⟩
  · simp [mineruWorkerIter, hq]
  · rcases hget : assocGet st.registry h with _ | tk
    · simp [mineruWorkerIter, hq, hget]
    · by_cases hst : tk.status = TaskStatus.pending
      · simp only [mineruWorkerIter, hq, hget, if_pos hst]
        rw [isSome_assocGet_assocSet]
        constructor
        · rintro (rfl | hs)
          · rw [hget]; rfl
          · exact hs
        · exact Or.inr
      · simp [mineruWorkerIter, hq, hget, hst]

theorem mineruStep_hasId (st : MineruState) (op : SysOp) (id : String) :
    (assocGet (mineruStep st op).registry id).isSome = true ↔
      ((assocGet st.registry id).isSome = true ∨ id ∈ submittedOk [op]) := by
  rcases op with ⟨fresh, ct, fn, burl, defBase, up⟩ | o | qid
  · by_cases hok : submitOk ct fn burl defBase up = true
    · rcases up with _ | saved
      · unfold submitOk at hok; simp at hok
      · rw [show mineruStep st (.submit fresh ct fn burl defBase (some saved)) =
              (parse_async_file st ct fn burl defBase (some saved) fresh).2 from rfl,
            parse_async_file_ok st ct fn burl defBase saved fresh hok]
        have hsub : submittedOk
            [SysOp.submit fresh ct fn burl defBase (some saved)] = [fresh] := by
          simp [submittedOk, hok]
        rw [hsub]
        show (assocGet (assocSet st.registry fresh _) id).isSome = true ↔ _
        rw [isSome_assocGet_assocSet]
        constructor
        · rintro (rfl | hs)
          · exact Or.inr (List.mem_singleton.mpr rfl)
          · exact Or.inl hs
        · rintro (hs | hm)
          · exact Or.inr hs
          · exact Or.inl (List.mem_singleton.mp hm).symm
    · have hfail : ∃ c, (parse_async_file st ct fn burl defBase up fresh).1 =
          Except.error c := by
        by_cases hpdf : isPdfUpload ct fn = false
        · exact ⟨415, by unfold parse_async_file; simp [hpdf]⟩
        · rcases up with _ | saved
          · exact ⟨413, by unfold parse_async_file; simp [hpdf]⟩
          · by_cases hb : effectiveBase burl defBase = ""
            · exact ⟨400, by unfold parse_async_file; simp [hpdf, hb]⟩
            · exfalso
              apply hok
              unfold submitOk
              simp only [Bool.not_eq_false] at hpdf
              simp [hpdf, hb]
      obtain ⟨c, hc⟩ := hfail
      have hstate := parse_async_file_fail st ct fn burl defBase up fresh c hc
      rw [show mineruStep st (.submit fresh ct fn burl defBase up) =
            (parse_async_file st ct fn burl defBase up fresh).2 from rfl, hstate]
      simp only [submittedOk, hok]
      simp [hok]
  · rw [show mineruStep st (.work o) = mineruWorkerIter st o from rfl,
        mineruWorkerIter_hasId]
    simp [submittedOk]
  · simp [mineruStep, submittedOk]

theorem mineruRun_hasId (ops : List SysOp) (st : MineruState) (id : String) :
    (assocGet (mineruRun st ops).registry id).isSome = true ↔
      ((assocGet st.registry id).isSome = true ∨ id ∈ submittedOk ops) := by
  induction ops generalizing st with
  | nil => simp [mineruRun, submittedOk]
  | cons op rest ih =>
      rw [show mineruRun st (op :: rest) = mineruRun (mineruStep st op) rest
            from rfl, ih, mineruStep_hasId]
      have : submittedOk (op :: rest) = submittedOk [op] ++ submittedOk rest := by
        rcases op with ⟨fresh, ct, fn, burl, defBase, up⟩ | o | qid <;>
          simp [submittedOk]
      rw [this]
      simp [or_assoc]

theorem mineruStep_inv (st : MineruState) (op : SysOp)
    (h : mineruInv st) : mineruInv (mineruStep st op) := by
  rcases op with ⟨fresh, ct, fn, burl, defBase, up⟩ | o | qid
  · intro id r hget
    by_cases hok : submitOk ct fn burl defBase up = true
    · rcases up with _ | saved
      · unfold submitOk at hok; simp at hok
      · rw [show mineruStep st (.submit fresh ct fn burl defBase (some saved)) =
              (parse_async_file st ct fn burl defBase (some saved) fresh).2
              from rfl,
            parse_async_file_ok st ct fn burl defBase saved fresh hok] at hget
        simp only at hget
        rw [assocGet_assocSet] at hget
        by_cases he : fresh = id
        · rw [if_pos he] at hget
          cases hget
          exact ⟨Or.inl rfl, fun _ => ⟨rfl, rfl⟩⟩
        · rw [if_neg he] at hget
          exact h id r hget
    · have hfail : ∃ c, (parse_async_file st ct fn burl defBase up fresh).1 =
          Except.error c := by
        by_cases hpdf : isPdfUpload ct fn = false
        · exact ⟨415, by unfold parse_async_file; simp [hpdf]⟩
        · rcases up with _ | saved
          · exact ⟨413, by unfold parse_async_file; simp [hpdf]⟩
          · by_cases hb : effectiveBase burl defBase = ""
            · exact ⟨400, by unfold parse_async_file; simp [hpdf, hb]⟩
            · exfalso
              apply hok
              unfold submitOk
              simp only [Bool.not_eq_false] at hpdf
              simp [hpdf, hb]
      obtain ⟨c, hc⟩ := hfail
      rw [show mineruStep st (.submit fresh ct fn burl defBase up) =
            (parse_async_file st ct fn burl defBase up fresh).2 from rfl,
          parse_async_file_fail st ct fn burl defBase up fresh c hc] at hget
      exact h id r hget
  · intro id r hget
    rw [show mineruStep st (.work o) = mineruWorkerIter st o from rfl] at hget
    rcases hq : st.queue with _ | ⟨hd, t⟩
    · simp only [mineruWorkerIter, hq] at hget
      exact h id r hget
    · rcases hg2 : assocGet st.registry hd with _ | tk
      · simp only [mineruWorkerIter, hq, hg2] at hget
        exact h id r hget
      · by_cases hst : tk.status = TaskStatus.pending
        · simp only [mineruWorkerIter, hq, hg2, if_pos hst] at hget
          rw [assocGet_assocSet] at hget
          by_cases he : hd = id
          · rw [if_pos he] at hget
            cases hget
            exact exclMineru_final tk o (h hd tk hg2)
          · rw [if_neg he] at hget
            exact h id r hget
        · simp only [mineruWorkerIter, hq, hg2, if_neg hst] at hget
          exact h id r hget
  · exact h

theorem mineruRun_inv (ops : List SysOp) (st : MineruState)
    (h : mineruInv st) : mineruInv (mineruRun st ops) := by
  induction ops generalizing st with
  | nil => exact h
  | cons op rest ih =>
      exact ih (mineruStep st op) (mineruStep_inv st op h)

/-- A worker iteration never changes a record that is already terminal. -/
theorem mineruWorkerIter_terminal (st : MineruState) (o : Except String PyVal)
    (id : String) (r : MineruTask)
    (hget : assocGet st.registry id = some r) (hrank : statusRank r.status = 2) :
    assocGet (mineruWorkerIter st o).registry id = some r := by
  rcases hq : st.queue with _ | ⟨hd, t⟩
  · simp only [mineruWorkerIter, hq]
    exact hget
  · rcases hg2 : assocGet st.registry hd with _ | tk
    · simp only [mineruWorkerIter, hq, hg2]
      exact hget
    · by_cases hst : tk.status = TaskStatus.pending
      · simp only [mineruWorkerIter, hq, hg2, if_pos hst]
        rw [assocGet_assocSet]
        have hne : ¬ hd = id := by
          intro he
          rw [he, hget] at hg2
          cases hg2
          rw [hst] at hrank
          simp [statusRank] at hrank
        rw [if_neg hne]
        exact hget
      · simp only [mineruWorkerIter, hq, hg2, if_neg hst]
        exact hget

/-- Main queue invariant: the dequeue log followed by the remaining queue
is exactly the sequence of enqueued identifiers, in order. -/
theorem qRun_log_queue (ops : List QOp) (s : QState) :
    (qRun s ops).log ++ (qRun s ops).queue =
      s.log ++ s.queue ++ enqueuedOf ops := by
  induction ops generalizing s with
  | nil => simp [qRun, enqueuedOf]
  | cons op rest ih =>
      rcases op with id | _
      · rw [show qRun s (.enq id :: rest) = qRun (qStep s (.enq id)) rest
              from rfl, ih]
        simp [qStep, enqueuedOf]
      · rw [show qRun s (.deq :: rest) = qRun (qStep s .deq) rest from rfl, ih]
        rcases hq : s.queue with _ | ⟨h, t⟩
        · simp [qStep, hq, enqueuedOf]
        · simp [qStep, hq, enqueuedOf]

/-- C10: `_normalize_mineru_response` moves a single-entry
`results`-mapping's `md_content` (or a string-valued `results`) into
`md_result` and deletes `results`, and returns every other input
unchanged. -/
theorem c10_normalize_mineru_response_cases :
    (∀ (entries : List (String × PyVal)) (k : String)
       (fentries : List (String × PyVal)) (mdv : PyVal),
       assocGet entries "results" = some (.dict [(k, .dict fentries)]) →
       assocGet fentries "md_content" = some mdv →
       normalize_mineru_response (.dict entries) =
         .dict (assocDel (assocSet entries "md_result" mdv) "results"))
  ∧ (∀ (entries : List (String × PyVal)) (s : String),
       assocGet entries "results" = some (.str s) →
       normalize_mineru_response (.dict entries) =
         .dict (assocDel (assocSet entries "md_result" (.str s)) "results"))
  ∧ (∀ entries : List (String × PyVal),
       assocGet entries "results" = none →
       normalize_mineru_response (.dict entries) = .dict entries)
  ∧ (∀ (entries : List (String × PyVal)) (res : PyVal),
       assocGet entries "results" = some res →
       mdSingleVal res = none → (∀ s, res ≠ .str s) →
       normalize_mineru_response (.dict entries) = .dict entries)
  ∧ (∀ data : PyVal, (∀ entries, data ≠ .dict entries) →
       normalize_mineru_response data = data) := by
  refine ⟨?_, ?_, ?_, ?_, ?_⟩
  · intro entries k fentries mdv h1 h2
    simp [normalize_mineru_response, h1, h2]
  · intro entries s h1
    simp [normalize_mineru_response, h1]
  · intro entries h1
    simp [normalize_mineru_response, h1]
  · intro entries res h1 h2 h3
    rcases res with s | n | b | _ | xs | es
    · exact absurd rfl (h3 s)
    · simp [normalize_mineru_response, h1]
    · simp [normalize_mineru_response, h1]
    · simp [normalize_mineru_response, h1]
    · simp [normalize_mineru_response, h1]
    · rcases es with _ | ⟨⟨ek, ev⟩, rest⟩
      · simp [normalize_mineru_response, h1]
      · rcases rest with _ | ⟨e2, rest2⟩
        · rcases ev with s | n | b | _ | xs | fs
          · simp [normalize_mineru_response, h1]
          · simp [normalize_mineru_response, h1]
          · simp [normalize_mineru_response, h1]
          · simp [normalize_mineru_response, h1]
          · simp [normalize_mineru_response, h1]
          · simp only [mdSingleVal] at h2
            simp [normalize_mineru_response, h1, h2]
        · simp [normalize_mineru_response, h1]
  · intro data h
    rcases data with s | n | b | _ | xs | es
    · rfl
    · rfl
    · rfl
    · rfl
    · rfl
    · exact absurd rfl (h es)

/-- Witness for C10: a concrete Mineru response with a single-entry
`results` mapping is normalized to `md_result` with `results` removed. -/
theorem c10_witness :
    assocGet [("backend", PyVal.str "mineru"),
        ("results", PyVal.dict [("doc1",
           PyVal.dict [("md_content", PyVal.str "# Title")])])] "results" =
      some (.dict [("doc1", .dict [("md_content", .str "# Title")])])
  ∧ normalize_mineru_response
      (.dict [("backend", .str "mineru"),
        ("results", .dict [("doc1",
           .dict [("md_content", .str "# Title")])])]) =
      .dict [("backend", .str "mineru"), ("md_result", .str "# Title")] :=
  ⟨rfl,
   c10_normalize_mineru_response_cases.1 _ "doc1" _ (.str "# Title") rfl rfl⟩

/-- C2: the job queue is FIFO — `enqueue` appends at the tail, `dequeue`
returns the head only when the queue is non-empty, identifiers come out in
submission order, with distinct identifiers none is returned twice, and no
enqueued identifier is lost (each is either already dequeued or still
queued, and is dequeued once the queue drains). -/
theorem c2_queue_fifo (ops : List QOp)
    (hnd : (enqueuedOf ops).Nodup) :
    (qRun ⟨[], []⟩ ops).log ++ (qRun ⟨[], []⟩ ops).queue = enqueuedOf ops
  ∧ (qRun ⟨[], []⟩ ops).log.Nodup
  ∧ (∀ id, id ∈ enqueuedOf ops →
       id ∈ (qRun ⟨[], []⟩ ops).log ∨ id ∈ (qRun ⟨[], []⟩ ops).queue)
  ∧ ((qRun ⟨[], []⟩ ops).queue = [] →
       ∀ id, id ∈ enqueuedOf ops → id ∈ (qRun ⟨[], []⟩ ops).log)
  ∧ (∀ q l id, qStep ⟨q, l⟩ (.enq id) = ⟨q ++ [id], l⟩)
  ∧ (∀ l, qStep ⟨[], l⟩ .deq = ⟨[], l⟩)
  ∧ (∀ h t l, qStep ⟨h :: t, l⟩ .deq = ⟨t, l ++ [h]⟩) := by
  have hmain := qRun_log_queue ops ⟨[], []⟩
  simp only [List.nil_append] at hmain
  refine ⟨hmain, ?_, ?_, ?_, ?_, ?_, ?_⟩
  · rw [← hmain] at hnd
    exact hnd.of_append_left
  · intro id hid
    rw [← hmain] at hid
    exact List.mem_append.mp hid
  · intro hq id hid
    rw [← hmain, hq, List.append_nil] at hid
    exact hid
  · intro q l id; rfl
  · intro l; rfl
  · intro h t l; rfl

/-- Witness for C2: a concrete run enqueuing two distinct identifiers and
dequeuing one. -/
theorem c2_witness :
    (enqueuedOf [.enq "a", .enq "b", .deq]).Nodup
  ∧ (qRun ⟨[], []⟩ [.enq "a", .enq "b", .deq]).log ++
      (qRun ⟨[], []⟩ [.enq "a", .enq "b", .deq]).queue =
      enqueuedOf [.enq "a", .enq "b", .deq] :=
  ⟨by decide, (c2_queue_fifo [.enq "a", .enq "b", .deq] (by decide)).1⟩

/-- C1 (amended): worker-driven updates only move a record's state
forward.  The Mineru worker takes a claimed `pending` record through
`processing` to exactly one terminal state, never touches a non-`pending`
record, and never changes a terminal record; the LibreOffice async task
moves its `pending` record directly to `done` or `error`, skipping
`processing`, still strictly forward. -/
theorem c1_state_forward :
    (∀ (r : MineruTask) (o : Except String PyVal), r.status = .pending →
       (mineruJobTrace r o).map MineruTask.status =
           [.pending, .processing, .done] ∨
       (mineruJobTrace r o).map MineruTask.status =
           [.pending, .processing, .error])
  ∧ (∀ (r : MineruTask) (o : Except String PyVal),
       List.Chain' (fun a b => specAllowed a b = true)
         ((mineruJobTrace r o).map MineruTask.status))
  ∧ (∀ (r : MineruTask) (o : Except String PyVal), r.status ≠ .pending →
       mineruJobTrace r o = [r])
  ∧ (∀ (st : MineruState) (o : Except String PyVal) (id : String)
       (r : MineruTask), assocGet st.registry id = some r →
       statusRank r.status = 2 →
       assocGet (mineruWorkerIter st o).registry id = some r)
  ∧ (∀ (r : LibreTask) (p : String) (o : GotOutcome), r.status = .pending →
       ((libreJobFinal r p o).status = .done ∨
        (libreJobFinal r p o).status = .error)
       ∧ statusRank r.status < statusRank (libreJobFinal r p o).status) := by
  refine ⟨?_, ?_, mineruJobTrace_skip, mineruWorkerIter_terminal, ?_⟩
  · intro r o hst
    rcases hfp : r.file_path with _ | fp
    · right; simp [mineruJobTrace, hst, hfp]
    · rcases o with m | v
      · right; simp [mineruJobTrace, hst, hfp]
      · left; simp [mineruJobTrace, hst, hfp]
  · intro r o
    rcases hst : r.status with h | h | h | h
    · rcases hfp : r.file_path with _ | fp
      · simp [mineruJobTrace, hst, hfp, List.chain'_cons, specAllowed]
      · rcases o with m | v
        · simp [mineruJobTrace, hst, hfp, List.chain'_cons, specAllowed]
        · simp [mineruJobTrace, hst, hfp, List.chain'_cons, specAllowed]
    all_goals simp [mineruJobTrace, hst]
  · intro r p o hst
    rcases o with _ | ⟨code, text⟩ | m
    · exact ⟨Or.inl rfl, by simp [libreJobFinal, hst, statusRank]⟩
    · exact ⟨Or.inr rfl, by simp [libreJobFinal, hst, statusRank]⟩
    · exact ⟨Or.inr rfl, by simp [libreJobFinal, hst, statusRank]⟩

/-- Witness for C1 (amended): a concrete pending Mineru record with a
successful converter call passes through exactly
pending, processing, done. -/
theorem c1_witness :
    MineruTask.status ⟨.pending, "http://m", some "temp/a.pdf", none, none⟩ =
      .pending
  ∧ ((mineruJobTrace ⟨.pending, "http://m", some "temp/a.pdf", none, none⟩
        (.ok (.str "md"))).map MineruTask.status =
        [.pending, .processing, .done] ∨
     (mineruJobTrace ⟨.pending, "http://m", some "temp/a.pdf", none, none⟩
        (.ok (.str "md"))).map MineruTask.status =
        [.pending, .processing, .error]) :=
  ⟨rfl, c1_state_forward.1 ⟨.pending, "http://m", some "temp/a.pdf", none, none⟩
     (.ok (.str "md")) rfl⟩

/-- Counterexample for C1 as stated: the LibreOffice async task's single
write moves a pending record straight to `done`, a transition the claimed
state machine (which never skips `processing`) forbids. -/
theorem c1_counterexample :
    libreJobFinal ⟨.pending, none, none⟩ "temp/libreoffice/outputs/t1.pdf"
        .httpOk =
      ⟨.done, some "temp/libreoffice/outputs/t1.pdf", none⟩
  ∧ specAllowed .pending .done = false :=
  ⟨rfl, rfl⟩

/-- C3 (amended): record creation in the submission path is a plain
assignment — a successful submission stores the fresh `pending` record
under its identifier whether or not that identifier already exists,
silently overwriting any previous record (no DuplicateIdentifier error
exists in the code); records under other identifiers are untouched. -/
theorem c3_create_overwrites (st : MineruState) (ct fn burl : Option String)
    (defBase saved fresh : String)
    (hok : submitOk ct fn burl defBase (some saved) = true) :
    (parse_async_file st ct fn burl defBase (some saved) fresh).1 = .ok fresh
  ∧ assocGet (parse_async_file st ct fn burl defBase (some saved)
        fresh).2.registry fresh =
      some ⟨.pending, effectiveBase burl defBase, some saved, none, none⟩
  ∧ (∀ id, id ≠ fresh →
      assocGet (parse_async_file st ct fn burl defBase (some saved)
          fresh).2.registry id = assocGet st.registry id) := by
  rw [parse_async_file_ok st ct fn burl defBase saved fresh hok]
  refine ⟨rfl, ?_, ?_⟩
  · show assocGet (assocSet st.registry fresh _) fresh = _
    rw [assocGet_assocSet, if_pos rfl]
  · intro id hid
    show assocGet (assocSet st.registry fresh _) id = _
    rw [assocGet_assocSet, if_neg (fun h => hid h.symm)]

/-- Witness for C3 (amended): submitting with an identifier that already
names a `done` record succeeds and replaces that record with the fresh
`pending` one. -/
theorem c3_witness :
    submitOk (some "application/pdf") (some "a.pdf") none "http://m"
      (some "temp/b.pdf") = true
  ∧ (parse_async_file
        ⟨[("t1", ⟨.done, "http://m", some "temp/a.pdf", some (.str "md"),
            none⟩)], []⟩
        (some "application/pdf") (some "a.pdf") none "http://m"
        (some "temp/b.pdf") "t1").1 = .ok "t1"
  ∧ assocGet (parse_async_file
        ⟨[("t1", ⟨.done, "http://m", some "temp/a.pdf", some (.str "md"),
            none⟩)], []⟩
        (some "application/pdf") (some "a.pdf") none "http://m"
        (some "temp/b.pdf") "t1").2.registry "t1" =
      some ⟨.pending, effectiveBase none "http://m", some "temp/b.pdf",
        none, none⟩ :=
  ⟨rfl,
   (c3_create_overwrites
      ⟨[("t1", ⟨.done, "http://m", some "temp/a.pdf", some (.str "md"),
          none⟩)], []⟩
      (some "application/pdf") (some "a.pdf") none "http://m" "temp/b.pdf"
      "t1" rfl).1,
   (c3_create_overwrites
      ⟨[("t1", ⟨.done, "http://m", some "temp/a.pdf", some (.str "md"),
          none⟩)], []⟩
      (some "application/pdf") (some "a.pdf") none "http://m" "temp/b.pdf"
      "t1" rfl).2.1⟩

/-- Counterexample for C3 as stated: with `"t1"` already present and
holding a `done` record, a submission reusing `"t1"` does not fail — it
returns success and the registry now holds the new `pending` record, the
old record being silently discarded. -/
theorem c3_counterexample :
    (parse_async_file
        ⟨[("t1", ⟨.done, "http://m", some "temp/a.pdf", some (.str "md"),
            none⟩)], []⟩
        (some "application/pdf") (some "a.pdf") none "http://m"
        (some "temp/b.pdf") "t1").1 = .ok "t1"
  ∧ assocGet (parse_async_file
        ⟨[("t1", ⟨.done, "http://m", some "temp/a.pdf", some (.str "md"),
            none⟩)], []⟩
        (some "application/pdf") (some "a.pdf") none "http://m"
        (some "temp/b.pdf") "t1").2.registry "t1" =
      some ⟨.pending, "http://m", some "temp/b.pdf", none, none⟩
  ∧ (⟨.pending, "http://m", some "temp/b.pdf", none, none⟩ : MineruTask) ≠
      ⟨.done, "http://m", some "temp/a.pdf", some (.str "md"), none⟩ := by
  refine ⟨rfl, rfl, ?_⟩
  intro h
  cases h

/-- C4: for a claimed pending job, a failing converter call makes the
worker write state `error` with exactly the failure message (non-empty
when the message is) while `result` stays unset throughout; a successful
call makes it write `done` with the converter's value while `error` stays
unset throughout; either way the iteration ends in a terminal write rather
than escaping. -/
theorem c4_worker_outcome (r : MineruTask) (fp m : String) (v : PyVal)
    (hst : r.status = .pending) (hfp : r.file_path = some fp)
    (hres : r.result = none) (herr : r.error = none) (hm : m ≠ "") :
    (mineruJobFinal r (.error m)).status = .error
  ∧ (mineruJobFinal r (.error m)).error = some m
  ∧ (mineruJobFinal r (.error m)).result = none
  ∧ (∀ s ∈ mineruJobTrace r (.error m), s.result = none)
  ∧ (mineruJobFinal r (.ok v)).status = .done
  ∧ (mineruJobFinal r (.ok v)).result = some v
  ∧ (mineruJobFinal r (.ok v)).error = none
  ∧ (∀ s ∈ mineruJobTrace r (.ok v), s.error = none)
  ∧ (mineruJobFinal r (.error m)).error ≠ some ""
  ∧ statusRank (mineruJobFinal r (.error m)).status = 2
  ∧ statusRank (mineruJobFinal r (.ok v)).status = 2 := by
  rw [mineruJobFinal_fail r fp m hst hfp, mineruJobFinal_ok r fp v hst hfp]
  refine ⟨rfl, rfl, hres, ?_, rfl, rfl, herr, ?_,
    fun hc => hm (Option.some.inj hc), rfl, rfl⟩
  · intro s hs
    simp only [mineruJobTrace, hst, hfp, List.mem_cons,
      List.not_mem_nil, or_false] at hs
    rcases hs with rfl | rfl | rfl
    · exact hres
    · exact hres
    · exact hres
  · intro s hs
    simp only [mineruJobTrace, hst, hfp, List.mem_cons,
      List.not_mem_nil, or_false] at hs
    rcases hs with rfl | rfl | rfl
    · exact herr
    · exact herr
    · exact herr

/-- Witness for C4: a concrete pending record evaluated at a failing and
at a succeeding converter outcome. -/
theorem c4_witness :
    MineruTask.status ⟨.pending, "http://m", some "temp/a.pdf", none, none⟩ =
      .pending
  ∧ ("Mineru call failed" : String) ≠ ""
  ∧ (mineruJobFinal ⟨.pending, "http://m", some "temp/a.pdf", none, none⟩
       (.error "Mineru call failed")).error = some "Mineru call failed"
  ∧ (mineruJobFinal ⟨.pending, "http://m", some "temp/a.pdf", none, none⟩
       (.ok (.str "md"))).result = some (.str "md") :=
  ⟨rfl, by decide,
   (c4_worker_outcome ⟨.pending, "http://m", some "temp/a.pdf", none, none⟩
      "temp/a.pdf" "Mineru call failed" (.str "md") rfl rfl rfl rfl
      (by decide)).2.1,
   (c4_worker_outcome ⟨.pending, "http://m", some "temp/a.pdf", none, none⟩
      "temp/a.pdf" "Mineru call failed" (.str "md") rfl rfl rfl rfl
      (by decide)).2.2.2.2.2.1⟩

/-- C5: the Mineru result endpoint answers 404 exactly for identifiers no
successful submission ever returned, and immediately after a successful
submission the returned identifier resolves to its `pending` record. -/
theorem c5_result_lookup :
    (∀ (ops : List SysOp) (id : String),
       parse_result (mineruRun ⟨[], []⟩ ops) id = .error 404 ↔
         id ∉ submittedOk ops)
  ∧ (∀ (st : MineruState) (ct fn burl : Option String)
       (defBase saved fresh : String),
       submitOk ct fn burl defBase (some saved) = true →
       (parse_async_file st ct fn burl defBase (some saved) fresh).1 =
           .ok fresh
       ∧ parse_result
           (parse_async_file st ct fn burl defBase (some saved) fresh).2
           fresh =
         .ok (200, ⟨.pending, effectiveBase burl defBase, some saved,
           none, none⟩)) := by
  constructor
  · intro ops id
    have hdom := mineruRun_hasId ops ⟨[], []⟩ id
    have hempty : (assocGet (⟨[], []⟩ : MineruState).registry id).isSome
        = false := rfl
    rw [hempty] at hdom
    simp only [Bool.false_eq_true, false_or] at hdom
    rcases hget : assocGet (mineruRun ⟨[], []⟩ ops).registry id with _ | t
    · have : ¬ id ∈ submittedOk ops := by
        intro hmem
        have := hdom.mpr hmem
        rw [hget] at this
        cases this
      simp only [parse_result, hget]
      exact ⟨fun _ => this, fun _ => trivial⟩
    · have hmem : id ∈ submittedOk ops := by
        apply hdom.mp
        rw [hget]
        rfl
      simp only [parse_result, hget]
      constructor
      · intro h
        cases h
      · intro h
        exact absurd hmem h
  · intro st ct fn burl defBase saved fresh hok
    rw [parse_async_file_ok st ct fn burl defBase saved fresh hok]
    refine ⟨rfl, ?_⟩
    simp only [parse_result]
    rw [show assocGet
          (assocSet st.registry fresh
            ⟨.pending, effectiveBase burl defBase, some saved, none, none⟩)
          fresh =
        some ⟨.pending, effectiveBase burl defBase, some saved, none, none⟩
      from by rw [assocGet_assocSet, if_pos rfl]]

/-- Witness for C5: a run with one successful submission resolves that
identifier and 404s an unknown one; a fresh submission is immediately
resolvable as `pending`. -/
theorem c5_witness :
    (parse_result
        (mineruRun ⟨[], []⟩
          [.submit "t1" (some "application/pdf") (some "a.pdf") none
             "http://m" (some "temp/a.pdf")])
        "unknown-id" = .error 404 ↔
      "unknown-id" ∉ submittedOk
        [.submit "t1" (some "application/pdf") (some "a.pdf") none
           "http://m" (some "temp/a.pdf")])
  ∧ submitOk (some "application/pdf") (some "a.pdf") none "http://m"
      (some "temp/a.pdf") = true
  ∧ parse_result
      (parse_async_file ⟨[], []⟩ (some "application/pdf") (some "a.pdf")
         none "http://m" (some "temp/a.pdf") "t1").2 "t1" =
      .ok (200, ⟨.pending, effectiveBase none "http://m", some "temp/a.pdf",
        none, none⟩) :=
  ⟨c5_result_lookup.1
     [.submit "t1" (some "application/pdf") (some "a.pdf") none "http://m"
        (some "temp/a.pdf")] "unknown-id",
   rfl,
   (c5_result_lookup.2 ⟨[], []⟩ (some "application/pdf") (some "a.pdf")
      none "http://m" "temp/a.pdf" "t1" rfl).2⟩

/-- C6: `result` and `error` are never both present, and both are absent
while a record is `pending` or `processing` — over every reachable Mineru
registry, at every intermediate write of a worker iteration, and for the
LibreOffice records across creation and the async task's write. -/
theorem c6_result_error_exclusive :
    (∀ (ops : List SysOp) (id : String) (r : MineruTask),
       assocGet (mineruRun ⟨[], []⟩ ops).registry id = some r → exclMineru r)
  ∧ (∀ (r : MineruTask) (o : Except String PyVal), exclMineru r →
       ∀ s ∈ mineruJobTrace r o, exclMineru s)
  ∧ (∀ (st : LibreState) (fn : Option String) (fresh : String)
       (saveOk startOk : Bool) (id : String) (r : LibreTask),
       (∀ id2 r2, assocGet st.registry id2 = some r2 → libreExcl r2) →
       assocGet (convert_document_async st fn fresh saveOk
           startOk).2.registry id = some r →
       libreExcl r)
  ∧ (∀ (r : LibreTask) (p : String) (o : GotOutcome),
       r.status = .pending → r.output_path = none → r.error = none →
       libreExcl (libreJobFinal r p o)) := by
  refine ⟨?_, exclMineru_trace, ?_, ?_⟩
  · intro ops id r hget
    have hinv : mineruInv (⟨[], []⟩ : MineruState) := by
      intro id2 r2 h2
      cases h2
    exact mineruRun_inv ops ⟨[], []⟩ hinv id r hget
  · intro st fn fresh saveOk startOk id r hinv hget
    rcases fn with _ | fn
    · exact hinv id r hget
    · by_cases hemp : fn = ""
      · simp only [convert_document_async, hemp, if_pos rfl] at hget
        exact hinv id r hget
      · by_cases hext : (SUPPORTED_FORMATS.map String.data).contains
            ((pathSuffixChars fn.data).map lowerChar) = true
        · by_cases hsave : saveOk = false
          · simp only [convert_document_async, if_neg hemp, hext,
              if_pos rfl, hsave] at hget
            exact hinv id r hget
          · rcases hstart : startOk with _ | _
            · simp only [convert_document_async, if_neg hemp, hext,
                if_true, if_pos rfl, if_neg hsave, hstart] at hget
              rw [assocGet_assocSet] at hget
              by_cases he : fresh = id
              · rw [if_pos he] at hget
                cases hget
                exact ⟨Or.inl rfl, fun _ => ⟨rfl, rfl⟩⟩
              · rw [if_neg he] at hget
                exact hinv id r hget
            · simp only [convert_document_async, if_neg hemp, hext,
                if_true, if_pos rfl, if_neg hsave, hstart,
                Bool.true_eq_false, if_false] at hget
              rw [assocGet_assocSet] at hget
              by_cases he : fresh = id
              · rw [if_pos he] at hget
                cases hget
                exact ⟨Or.inl rfl, fun _ => ⟨rfl, rfl⟩⟩
              · rw [if_neg he] at hget
                exact hinv id r hget
        · simp only [convert_document_async, if_neg hemp] at hget
          rw [if_neg (by simpa using hext)] at hget
          exact hinv id r hget
  · intro r p o hst hop herr
    rcases o with _ | ⟨code, text⟩ | m
    · exact ⟨Or.inr (by simp [libreJobFinal, herr]),
        fun hc => by simp [libreJobFinal] at hc⟩
    · exact ⟨Or.inl (by simp [libreJobFinal, hop]),
        fun hc => by simp [libreJobFinal] at hc⟩
    · exact ⟨Or.inl (by simp [libreJobFinal, hop]),
        fun hc => by simp [libreJobFinal] at hc⟩

/-- Witness for C6: the record stored by one concrete submission satisfies
the exclusivity invariant, as does a concrete LibreOffice terminal write. -/
theorem c6_witness :
    assocGet (mineruRun ⟨[], []⟩
        [.submit "t1" (some "application/pdf") (some "a.pdf") none
           "http://m" (some "temp/a.pdf")]).registry "t1" =
      some ⟨.pending, "http://m", some "temp/a.pdf", none, none⟩
  ∧ exclMineru ⟨.pending, "http://m", some "temp/a.pdf", none, none⟩
  ∧ LibreTask.status ⟨.pending, none, none⟩ = .pending
  ∧ libreExcl (libreJobFinal ⟨.pending, none, none⟩
      "temp/libreoffice/outputs/t1.pdf" .httpOk) :=
  ⟨rfl,
   c6_result_error_exclusive.1
     [.submit "t1" (some "application/pdf") (some "a.pdf") none "http://m"
        (some "temp/a.pdf")] "t1"
     ⟨.pending, "http://m", some "temp/a.pdf", none, none⟩ rfl,
   rfl,
   c6_result_error_exclusive.2.2.2 ⟨.pending, none, none⟩
     "temp/libreoffice/outputs/t1.pdf" .httpOk rfl rfl rfl⟩

/-- C7 (amended): every failing Mineru submission leaves the module state
untouched, and every LibreOffice submission failure up to and including
saving the upload leaves the registry untouched; but a LibreOffice failure
after record creation (the background thread failing to start) answers
HTTP 500 while leaving the fresh `pending` record in the registry. -/
theorem c7_submission_failure_state :
    (∀ (st : MineruState) (ct fn burl : Option String) (defBase : String)
       (up : Option String) (fresh : String) (c : Nat),
       (parse_async_file st ct fn burl defBase up fresh).1 = .error c →
       (parse_async_file st ct fn burl defBase up fresh).2 = st)
  ∧ (∀ (st : LibreState) (fn : Option String) (fresh : String)
       (saveOk : Bool) (c : Nat),
       (convert_document_async st fn fresh saveOk true).1 = .error c →
       (convert_document_async st fn fresh saveOk true).2 = st)
  ∧ (∀ (st : LibreState) (fn : String) (fresh : String), fn ≠ "" →
       (SUPPORTED_FORMATS.map String.data).contains
           ((pathSuffixChars fn.data).map lowerChar) = true →
       (convert_document_async st (some fn) fresh true false).1 = .error 500
       ∧ assocGet (convert_document_async st (some fn) fresh true
             false).2.registry fresh = some ⟨.pending, none, none⟩) := by
  refine ⟨parse_async_file_fail, ?_, ?_⟩
  · intro st fn fresh saveOk c h
    rcases fn with _ | fn
    · rfl
    · by_cases hemp : fn = ""
      · simp [convert_document_async, hemp]
      · by_cases hext : (SUPPORTED_FORMATS.map String.data).contains
            ((pathSuffixChars fn.data).map lowerChar) = true
        · by_cases hsave : saveOk = false
          · simp only [convert_document_async, if_neg hemp, if_pos hext,
              if_pos hsave]
          · simp only [convert_document_async, if_neg hemp, if_pos hext,
              if_neg hsave] at h
            simp at h
        · simp only [convert_document_async, if_neg hemp] at h ⊢
          rw [if_neg (by simpa using hext)] at h ⊢
  · intro st fn fresh hemp hext
    constructor
    · simp only [convert_document_async, if_neg hemp, if_pos hext]
      simp
    · simp only [convert_document_async, if_neg hemp, if_pos hext]
      rw [if_neg (fun hc : (true : Bool) = false => by cases hc)]
      show assocGet (assocSet st.registry fresh ⟨.pending, none, none⟩)
          fresh = _
      rw [assocGet_assocSet, if_pos rfl]

/-- Witness for C7 (amended): a rejected Mineru upload leaves the state
unchanged, and a concrete LibreOffice submission whose background thread
fails to start leaves its pending record behind. -/
theorem c7_witness :
    (parse_async_file ⟨[], []⟩ (some "text/plain") (some "a.txt") none
        "http://m" (some "temp/a.txt") "t1").1 = .error 415
  ∧ (parse_async_file ⟨[], []⟩ (some "text/plain") (some "a.txt") none
        "http://m" (some "temp/a.txt") "t1").2 = ⟨[], []⟩
  ∧ ("report.docx" : String) ≠ ""
  ∧ (SUPPORTED_FORMATS.map String.data).contains
      ((pathSuffixChars "report.docx".data).map lowerChar) = true
  ∧ assocGet (convert_document_async ⟨[]⟩ (some "report.docx") "t1" true
        false).2.registry "t1" = some ⟨.pending, none, none⟩ :=
  ⟨rfl,
   c7_submission_failure_state.1 ⟨[], []⟩ (some "text/plain")
     (some "a.txt") none "http://m" (some "temp/a.txt") "t1" 415 rfl,
   by decide, by decide,
   (c7_submission_failure_state.2.2 ⟨[]⟩ "report.docx" "t1" (by decide)
     (by decide)).2⟩

/-- Counterexample for C7 as stated: a LibreOffice submission that fails
when starting its background thread (after the record write of line 201)
answers HTTP 500 yet leaves the `pending` record in the Task Registry. -/
theorem c7_counterexample :
    (convert_document_async ⟨[]⟩ (some "report.docx") "t1" true false).1 =
      .error 500
  ∧ assocGet (convert_document_async ⟨[]⟩ (some "report.docx") "t1" true
        false).2.registry "t1" = some ⟨.pending, none, none⟩ :=
  ⟨rfl, rfl⟩

/-- C8 (amended): the LibreOffice result endpoint answers an error-state
record with HTTP 500 and exactly `{"status": "error", "error": <message>}`
and otherwise returns only projections; the Mineru result endpoint instead
returns the entire stored record — internal `base_url` and `file_path`
included — with HTTP 200 whatever the state. -/
theorem c8_result_projection (lst : LibreState) (id : String)
    (t : LibreTask) (m : String) (b : Bool)
    (hget : assocGet lst.registry id = some t)
    (hst : t.status = .error) (he : t.error = some m) :
    get_conversion_result lst id b =
      .json 500 [("status", .str "error"), ("error", .str m)]
  ∧ (∀ (mst : MineruState) (id2 : String) (t2 : MineruTask),
       assocGet mst.registry id2 = some t2 →
       parse_result mst id2 = .ok (200, t2)) := by
  constructor
  · simp [get_conversion_result, hget, hst, he]
  · intro mst id2 t2 hg
    simp [parse_result, hg]

/-- Witness for C8 (amended): a concrete error record is reported by the
LibreOffice endpoint as a 500 with only status and message. -/
theorem c8_witness :
    assocGet [("t1", (⟨.error, none, some "HTTP 500: conversion failed"⟩ :
        LibreTask))] "t1" =
      some ⟨.error, none, some "HTTP 500: conversion failed"⟩
  ∧ get_conversion_result ⟨[("t1",
        ⟨.error, none, some "HTTP 500: conversion failed"⟩)]⟩ "t1" false =
      .json 500 [("status", .str "error"),
        ("error", .str "HTTP 500: conversion failed")] :=
  ⟨rfl,
   (c8_result_projection
      ⟨[("t1", ⟨.error, none, some "HTTP 500: conversion failed"⟩)]⟩ "t1"
      ⟨.error, none, some "HTTP 500: conversion failed"⟩
      "HTTP 500: conversion failed" false rfl rfl rfl).1⟩

/-- Counterexample for C8 as stated: for a Mineru record in state `error`,
`parse_result` answers HTTP 200 (not 500) and its body is the whole record,
exposing the internal `file_path` and `base_url` fields. -/
theorem c8_counterexample :
    parse_result
      ⟨[("t1", ⟨.error, "http://mineru:8000",
          some "temp/mineru/uploads/t1.pdf", none,
          some "Mineru call failed"⟩)], []⟩ "t1" =
      .ok (200, ⟨.error, "http://mineru:8000",
        some "temp/mineru/uploads/t1.pdf", none,
        some "Mineru call failed"⟩)
  ∧ (200 : Nat) ≠ 500 :=
  ⟨rfl, by decide⟩

/-- C9 (amended): a non-PDF upload is rejected by the Mineru submission
endpoint with HTTP 415 and a file with an extension outside
`SUPPORTED_FORMATS` is rejected by the LibreOffice submission endpoint
with HTTP 400; in both cases the module state, and hence the Task
Registry, is left exactly as it was. -/
theorem c9_filetype_rejected :
    (∀ (st : MineruState) (ct fn burl : Option String) (defBase : String)
       (up : Option String) (fresh : String),
       isPdfUpload ct fn = false →
       parse_async_file st ct fn burl defBase up fresh = (.error 415, st))
  ∧ (∀ (st : LibreState) (fn fresh : String) (saveOk startOk : Bool),
       fn ≠ "" →
       (SUPPORTED_FORMATS.map String.data).contains
           ((pathSuffixChars fn.data).map lowerChar) = false →
       convert_document_async st (some fn) fresh saveOk startOk =
         (.error 400, st)) := by
  constructor
  · intro st ct fn burl defBase up fresh h
    simp [parse_async_file, h]
  · intro st fn fresh saveOk startOk hemp hext
    simp only [convert_document_async, if_neg hemp]
    have hne : ¬ ((SUPPORTED_FORMATS.map String.data).contains
        ((pathSuffixChars fn.data).map lowerChar) = true) := by
      rw [hext]
      simp
    rw [if_neg hne]

/-- Witness for C9 (amended): a concrete non-PDF Mineru upload gets a 415
and a concrete `.exe` LibreOffice upload gets a 400, both leaving the
state unchanged. -/
theorem c9_witness :
    isPdfUpload (some "text/plain") (some "notes.txt") = false
  ∧ parse_async_file ⟨[], []⟩ (some "text/plain") (some "notes.txt") none
      "http://m" (some "temp/a.txt") "t1" = (.error 415, ⟨[], []⟩)
  ∧ ("malware.exe" : String) ≠ ""
  ∧ (SUPPORTED_FORMATS.map String.data).contains
      ((pathSuffixChars "malware.exe".data).map lowerChar) = false
  ∧ convert_document_async ⟨[]⟩ (some "malware.exe") "t1" true true =
      (.error 400, ⟨[]⟩) :=
  ⟨by decide,
   c9_filetype_rejected.1 ⟨[], []⟩ (some "text/plain") (some "notes.txt")
     none "http://m" (some "temp/a.txt") "t1" (by decide),
   by decide, by decide,
   c9_filetype_rejected.2 ⟨[]⟩ "malware.exe" "t1" true true (by decide)
     (by decide)⟩

/-- Counterexample for C9 as stated: the LibreOffice endpoint rejects a
disallowed extension with HTTP 400, not the claimed HTTP 415. -/
theorem c9_counterexample :
    (convert_document_async ⟨[]⟩ (some "malware.exe") "t1" true true).1 =
      .error 400
  ∧ (400 : Nat) ≠ 415 :=
  ⟨rfl, by decide⟩
